import Mathlib

/-
Verification development for the campus pathfinding repository.

The repository consists of two orchestration scripts,
`src/find_optimal_campus_path.py` and `src/prepare_campus_cost_raster.py`,
that drive a third-party geospatial toolbox.  The algorithmic core
(cost-distance accumulation, optimal-path extraction, polygon
rasterization, reclassification) is performed by the toolbox and is not
part of the repository's code; it is modelled here from the specification.
The control flow of the two scripts themselves (which toolbox calls are
made, with which parameters, which temporary artifacts are created and
deleted, and how errors propagate) is translated directly from the
source files.
-/

open scoped ENNReal

namespace CampusPath

/-- A grid cell address, `(row, col)`. -/
abbrev Cell := ℤ × ℤ

/-- Modelled from the spec: a cost grid (§3).  A 2D array of cells with a
cell size and an affine origin mapping cell indices to planar coordinates.
Each cell holds a non-negative cost-per-unit-distance in `ℝ≥0∞`; the value
`⊤` is the sentinel for impassable / no-data cells.  The cost function is
total on `ℤ × ℤ`; only cells inside the `width × height` extent are part
of the grid. -/
structure CostGrid where
  width : ℕ
  height : ℕ
  cellSize : ℝ
  x0 : ℝ
  y0 : ℝ
  cost : Cell → ℝ≥0∞

/-- A cell address lies inside the grid extent. -/
def InBounds (g : CostGrid) (c : Cell) : Prop :=
  0 ≤ c.1 ∧ c.1 < (g.height : ℤ) ∧ 0 ≤ c.2 ∧ c.2 < (g.width : ℤ)

/-- A cell is passable when it is inside the grid and its cost is finite
(not the impassable sentinel). -/
def Passable (g : CostGrid) (c : Cell) : Prop :=
  InBounds g c ∧ g.cost c ≠ ⊤

/-- Modelled from the spec: the 8 compass octants (glossary: N, NE, E, SE,
S, SW, W, NW, in this index order), as `(row, col)` offsets.  Row indices
grow southward, so N is row `-1`. -/
def octantOffset : Fin 8 → Cell
  | 0 => (-1, 0)
  | 1 => (-1, 1)
  | 2 => (0, 1)
  | 3 => (1, 1)
  | 4 => (1, 0)
  | 5 => (1, -1)
  | 6 => (0, -1)
  | 7 => (-1, -1)

/-- Two cells are adjacent when the second is reached from the first by
one of the 8 octant offsets. -/
def Adjacent (u v : Cell) : Prop := ∃ d : Fin 8, v = u + octantOffset d

/-- Planar coordinate of a cell's center, via the grid's affine
transform: x grows with column, y shrinks with row. -/
noncomputable def cellCenter (g : CostGrid) (c : Cell) : ℝ × ℝ :=
  (g.x0 + ((c.2 : ℝ) + 1 / 2) * g.cellSize,
   g.y0 - ((c.1 : ℝ) + 1 / 2) * g.cellSize)

/-- Euclidean distance between the centers of two cells. -/
noncomputable def centerDist (g : CostGrid) (u v : Cell) : ℝ :=
  Real.sqrt (((cellCenter g u).1 - (cellCenter g v).1) ^ 2 +
    ((cellCenter g u).2 - (cellCenter g v).2) ^ 2)

/-- Modelled from the spec: edge traversal cost from cell `u` to neighbor
`v` (§4.2) = distance between the two cell centers × the average of the
two cells' cost values.  The averaging prices a boundary-crossing step
using both sides. -/
noncomputable def edgeCost (g : CostGrid) (u v : Cell) : ℝ≥0∞ :=
  ENNReal.ofReal (centerDist g u v) * ((g.cost u + g.cost v) / 2)

/-- Accumulated cost of a list of cells, summing `edgeCost` over
consecutive pairs. -/
noncomputable def pathCost (g : CostGrid) : List Cell → ℝ≥0∞
  | u :: v :: rest => edgeCost g u v + pathCost g (v :: rest)
  | _ => 0

/-- Step length of the 8-neighbor grid metric: `cellSize` for an
orthogonal step (same row or same column), `√2 × cellSize` for a diagonal
step. -/
noncomputable def stepLen8 (g : CostGrid) (u v : Cell) : ℝ≥0∞ :=
  ENNReal.ofReal (if u.1 = v.1 ∨ u.2 = v.2 then g.cellSize else Real.sqrt 2 * g.cellSize)

/-- Geometric length of a list of cells under the 8-neighbor metric. -/
noncomputable def pathLen8 (g : CostGrid) : List Cell → ℝ≥0∞
  | u :: v :: rest => stepLen8 g u v + pathLen8 g (v :: rest)
  | _ => 0

/-- `p` is a path of the grid graph from `s` to `t`: nonempty, starts at
`s`, ends at `t`, each step moves to one of the 8 neighbors, and every
visited cell is passable (impassable cells are never expanded into,
§4.2). -/
structure IsPath (g : CostGrid) (s t : Cell) (p : List Cell) : Prop where
  head_eq : p.head? = some s
  last_eq : p.getLast? = some t
  chain : p.Chain' Adjacent
  mem_passable : ∀ c ∈ p, Passable g c

/-- Modelled from the spec: the accumulation value (§3, §4.2) — the
minimum accumulated cost-distance from the source to a cell, `⊤` when the
cell is unreached. -/
noncomputable def accum (g : CostGrid) (src t : Cell) : ℝ≥0∞ :=
  ⨅ p : { p : List Cell // IsPath g src t p }, pathCost g p.1

/-- Grid shortest-path distance from `s` to `t` under the 8-neighbor
metric (orthogonal steps of length `cellSize`, diagonal steps of length
`√2 × cellSize`), over passable cells. -/
noncomputable def gridDist (g : CostGrid) (s t : Cell) : ℝ≥0∞ :=
  ⨅ p : { p : List Cell // IsPath g s t p }, pathLen8 g p.1

/-- A cell is reachable from the source through passable terrain. -/
def Reachable (g : CostGrid) (s t : Cell) : Prop :=
  ∃ p, IsPath g s t p

/-- Modelled from the spec: a back-direction cell value (§3) — one of the
8 compass octants, or a marker for "no direction" / "is a source cell". -/
inductive BackDir where
  | isSource : BackDir
  | noDir : BackDir
  | octant : Fin 8 → BackDir
deriving DecidableEq

/-- Octant `d` is a candidate back direction at cell `c`: stepping from
the neighbor `c + octantOffset d` into `c` attains `c`'s accumulation
value. -/
def IsCandidate (g : CostGrid) (src c : Cell) (d : Fin 8) : Prop :=
  accum g src (c + octantOffset d) + edgeCost g (c + octantOffset d) c = accum g src c

open scoped Classical in
/-- Boolean form of `IsCandidate`, used to scan the octants in index
order. -/
noncomputable def candidateB (g : CostGrid) (src c : Cell) (d : Fin 8) : Bool :=
  decide (IsCandidate g src c d)

open scoped Classical in
/-- Modelled from the spec: the back-direction grid (§4.2).  A source
cell is marked `isSource`; an unreached cell has no direction; otherwise
the direction points to the neighbor that produced the cell's best
accumulation, ties broken by preferring the smaller octant index (the
first match in octant-index order). -/
noncomputable def backDirOf (g : CostGrid) (src c : Cell) : BackDir :=
  if c = src then .isSource
  else if accum g src c = ⊤ then .noDir
  else ((List.finRange 8).find? (candidateB g src c)).elim .noDir .octant

/-- A planar point with an identifier (§3). -/
structure Point where
  x : ℝ
  y : ℝ
  id : ℕ

/-- A route: ordered polyline vertices (destination-to-source order,
matching the script's DESTINATIONS_TO_SOURCES parameter), the destination
identifier, and the total accumulated cost (§3). -/
structure Route where
  points : List (ℝ × ℝ)
  destId : ℕ
  cost : ℝ≥0∞

/-- Error kinds of the route pipeline (§7). -/
inductive RouteErr where
  | invalidInput : RouteErr
  | unreachableDestination : RouteErr
  | malformedGrid : RouteErr
deriving DecidableEq

/-- The unique grid cell containing a point, via the inverse affine
transform. -/
noncomputable def cellOf (g : CostGrid) (p : Point) : Cell :=
  (⌊(g.y0 - p.y) / g.cellSize⌋, ⌊(p.x - g.x0) / g.cellSize⌋)

/-- Fuel-bounded backtracking walk along the back-direction field,
collecting cells from the destination until a source cell is reached.
`none` signals a malformed back-direction field (a cycle or a missing
direction). -/
def backtrack (bd : Cell → BackDir) : ℕ → Cell → Option (List Cell)
  | 0, _ => Option.none
  | n + 1, c =>
    match bd c with
    | .isSource => some [c]
    | .noDir => Option.none
    | .octant d => (backtrack bd n (c + octantOffset d)).map (c :: ·)

open scoped Classical in
/-- Modelled from the spec: optimal-path extraction (§4.3).  Locates the
destination cell; if its accumulation is infinity, fails with
`UnreachableDestination` and returns no route; otherwise backtracks the
back-direction field to the source and returns the polyline of visited
cell centers together with the destination's accumulation value as the
total cost. -/
noncomputable def extractPath (g : CostGrid) (acc : Cell → ℝ≥0∞) (bd : Cell → BackDir)
    (dest : Point) : Except RouteErr Route :=
  if acc (cellOf g dest) = ⊤ then .error .unreachableDestination
  else
    match backtrack bd (g.width * g.height + 1) (cellOf g dest) with
    | Option.none => .error .malformedGrid
    | some cells => .ok ⟨cells.map (cellCenter g), dest.id, acc (cellOf g dest)⟩

/-- Modelled from the spec: the route service (§4.4) — accumulation from
the single source `{start}` composed with path extraction at the
destination. -/
noncomputable def findRoute (g : CostGrid) (start dest : Point) : Except RouteErr Route :=
  extractPath g (accum g (cellOf g start)) (backDirOf g (cellOf g start)) dest

/-- Modelled from the spec: a polygon region of the coverage — a
membership test for planar points plus a category value (§4.1). -/
structure Polygon where
  contains : ℝ × ℝ → Bool
  category : ℤ

/-- Modelled from the spec: the toolbox's polygon-to-raster conversion
with CELL_CENTER assignment and no priority field, as called at
src/prepare_campus_cost_raster.py lines 38-46.  A cell receives the
category of the polygon covering the given cell-center point; with
several covering polygons the first-listed wins; a cell covered by no
polygon receives the no-data sentinel (`none`). -/
def rasterizeCell (polys : List Polygon) (pt : ℝ × ℝ) : Option ℤ :=
  (polys.find? fun q => q.contains pt).map Polygon.category

/-- The toolbox Reclassify tool's `missing_values` modes: `data` keeps a
value that is absent from the remap table intact, `nodata` maps it to the
no-data sentinel. -/
inductive MissingValues where
  | data : MissingValues
  | nodata : MissingValues

/-- Modelled from the spec and the toolbox Reclassify call at
src/prepare_campus_cost_raster.py lines 50-55: each cell value found in
the remap table is replaced by its mapped value; a no-data cell stays
no-data; a value absent from the table is resolved by the
`missing_values` mode. -/
def reclassifyCell (remap : List (ℤ × ℤ)) (mv : MissingValues) (v : Option ℤ) : Option ℤ :=
  match v with
  | Option.none => Option.none
  | some x =>
    match remap.find? fun pr => pr.1 == x with
    | some pr => some pr.2
    | Option.none =>
      match mv with
      | .data => some x
      | .nodata => Option.none

/-- Cell values of the cost raster produced by
src/prepare_campus_cost_raster.py: rasterize the walkway polygons by
category at each cell center, then reclassify with the remap table
`"{outdoor} {outdoorCost};{indoor} {indoorCost}"` and
`missing_values="DATA"` exactly as the script passes them (lines 50-55). -/
noncomputable def build (walkways : List Polygon)
    (indoorFieldValue outdoorFieldValue indoorCostValue outdoorCostValue : ℤ)
    (g : CostGrid) : Cell → Option ℤ :=
  fun cell =>
    reclassifyCell [(outdoorFieldValue, outdoorCostValue), (indoorFieldValue, indoorCostValue)]
      MissingValues.data (rasterizeCell walkways (cellCenter g cell))

/-- The single error kind of the orchestration layer: a failed toolbox
call (`arcpy.ExecuteError`), re-raised by both scripts. -/
inductive OrchErr where
  | executeError : OrchErr
deriving DecidableEq

/-- The toolbox calls of `create_campus_cost_raster` that can raise. -/
inductive CRStep where
  | polygonToRaster : CRStep
  | reclassify : CRStep
  | save : CRStep
  | deleteTemp : CRStep
deriving DecidableEq

/-- The toolbox calls of `find_campus_route` that can raise. -/
inductive FRStep where
  | distanceAccumulation : FRStep
  | optimalPath : FRStep
  | deleteTemp : FRStep
deriving DecidableEq

/-- The in-memory workspace path of the temporary walkways raster used by
src/prepare_campus_cost_raster.py (the literal `memory WalkwaysRaster`). -/
def walkwaysTemp : String := "memory/WalkwaysRaster"

/-- The in-memory workspace path of the temporary back-direction raster
used by src/find_optimal_campus_path.py. -/
def backDirTemp : String := "memory/campus_route_back_direction"

/-- The output feature class name of src/find_optimal_campus_path.py. -/
def CAMPUS_ROUTE : String := "CampusRoute"

/-- State-effect translation of `create_campus_cost_raster`
(src/prepare_campus_cost_raster.py lines 35-72).  The state is the list
of persisted artifacts; `fail` says which toolbox call raises
`arcpy.ExecuteError`.  The `try` block runs PolygonToRaster (creating the
temporary walkways raster), Reclassify, `save` (creating the output cost
raster), then Delete on the temporary; both `except` clauses log and
re-raise, so on any failure the function returns the error with the
artifacts as they were at the point of the raise. -/
def create_campus_cost_raster (fail : CRStep → Bool) (costRaster : String)
    (st : List String) : Except OrchErr Unit × List String :=
  if fail .polygonToRaster then (.error .executeError, st)
  else
    let st1 := walkwaysTemp :: st
    if fail .reclassify then (.error .executeError, st1)
    else if fail .save then (.error .executeError, st1)
    else
      let st2 := costRaster :: st1
      if fail .deleteTemp then (.error .executeError, st2)
      else (.ok (), st2.erase walkwaysTemp)

/-- State-effect translation of `find_campus_route`
(src/find_optimal_campus_path.py lines 30-77).  DistanceAccumulation
creates the temporary back-direction raster, OptimalPathAsLine creates
the `CampusRoute` output, then Delete removes the temporary; both
`except` clauses log and re-raise, so on any failure the function returns
the error with the artifacts as they were at the point of the raise. -/
def find_campus_route (fail : FRStep → Bool)
    (st : List String) : Except OrchErr Unit × List String :=
  if fail .distanceAccumulation then (.error .executeError, st)
  else
    let st1 := backDirTemp :: st
    if fail .optimalPath then (.error .executeError, st1)
    else
      let st2 := CAMPUS_ROUTE :: st1
      if fail .deleteTemp then (.error .executeError, st2)
      else (.ok (), st2.erase backDirTemp)

/-- The distance between two cell centers factors as
`√((Δcol)² + (Δrow)²) × cellSize`. -/
theorem centerDist_eq (g : CostGrid) (h : 0 ≤ g.cellSize) (u v : Cell) :
    centerDist g u v =
      Real.sqrt (((u.2 - v.2 : ℤ) : ℝ) ^ 2 + ((u.1 - v.1 : ℤ) : ℝ) ^ 2) * g.cellSize := by
  unfold centerDist cellCenter
  have h1 : ((g.x0 + ((u.2 : ℝ) + 1 / 2) * g.cellSize) -
        (g.x0 + ((v.2 : ℝ) + 1 / 2) * g.cellSize)) ^ 2 +
      ((g.y0 - ((u.1 : ℝ) + 1 / 2) * g.cellSize) -
        (g.y0 - ((v.1 : ℝ) + 1 / 2) * g.cellSize)) ^ 2 =
      (((u.2 - v.2 : ℤ) : ℝ) ^ 2 + ((u.1 - v.1 : ℤ) : ℝ) ^ 2) * g.cellSize ^ 2 := by
    push_cast
    ring
  rw [h1, Real.sqrt_mul (by positivity), Real.sqrt_sq h]

/-- For each of the 8 octant steps, the Euclidean distance between cell
centers agrees with the 8-neighbor metric step length. -/
theorem ofReal_centerDist_adj (g : CostGrid) (h : 0 ≤ g.cellSize) (u : Cell) (d : Fin 8) :
    ENNReal.ofReal (centerDist g u (u + octantOffset d)) = stepLen8 g u (u + octantOffset d) := by
  fin_cases d <;>
    rw [centerDist_eq g h] <;>
    simp [stepLen8, octantOffset, Prod.fst_add, Prod.snd_add] <;>
    norm_num

/-- Halving a doubled extended-nonnegative value gives it back. -/
theorem ennreal_add_self_div_two (c : ℝ≥0∞) : (c + c) / 2 = c := by
  rw [← two_mul, mul_comm, mul_div_assoc,
    ENNReal.div_self two_ne_zero ENNReal.two_ne_top, mul_one]

/-- On a grid with uniform in-bounds cost `c`, the accumulated cost of
any passable chain is `c` times its 8-neighbor geometric length. -/
theorem pathCost_eq_mul_pathLen8 (g : CostGrid) (c : ℝ≥0∞) (hcs : 0 ≤ g.cellSize)
    (huni : ∀ cell, InBounds g cell → g.cost cell = c) :
    ∀ p : List Cell, p.Chain' Adjacent → (∀ x ∈ p, Passable g x) →
      pathCost g p = c * pathLen8 g p
  | [], _, _ => by simp [pathCost, pathLen8]
  | [u], _, _ => by simp [pathCost, pathLen8]
  | u :: v :: rest, hch, hmem => by
    have hadj : Adjacent u v := (List.chain'_cons.mp hch).1
    have hch2 : List.Chain' Adjacent (v :: rest) := (List.chain'_cons.mp hch).2
    have hu : Passable g u := hmem u (by simp)
    have hv : Passable g v := hmem v (by simp)
    have ih := pathCost_eq_mul_pathLen8 g c hcs huni (v :: rest) hch2
      (fun x hx => hmem x (List.mem_cons_of_mem _ hx))
    simp only [pathCost, pathLen8]
    rw [ih, mul_add]
    congr 1
    obtain ⟨d, hd⟩ := hadj
    subst hd
    unfold edgeCost
    rw [ofReal_centerDist_adj g hcs, huni u hu.1, huni _ hv.1,
      ennreal_add_self_div_two, mul_comm]

/-- C1: for every cost grid whose cells all hold the same finite cost
`c > 0`, the accumulation value at every cell reachable from the source
equals `c` multiplied by the grid shortest-path distance from the source
under the 8-neighbor metric (orthogonal steps of length `cellSize`,
diagonal steps of length `√2 × cellSize`). -/
theorem uniform_accum_eq_cost_mul_gridDist (g : CostGrid) (c : ℝ≥0∞)
    (hcs : 0 < g.cellSize) (hc0 : c ≠ 0) (hct : c ≠ ⊤)
    (huni : ∀ cell, InBounds g cell → g.cost cell = c)
    (s t : Cell) (hreach : Reachable g s t) :
    accum g s t = c * gridDist g s t := by
  unfold accum gridDist
  rw [ENNReal.mul_iInf_of_ne hc0 hct]
  exact iInf_congr fun p =>
    pathCost_eq_mul_pathLen8 g c hcs.le huni p.1 p.2.chain p.2.mem_passable

/-- C2: for every pair of adjacent passable cells `u` and `v`, the edge
traversal cost charged by the accumulation step from `u` to `v` equals
the distance between the two cell centers (1 cell-size unit for an
orthogonal neighbor, `√2` cell-size units for a diagonal neighbor)
multiplied by the arithmetic average of `u`'s and `v`'s cost values. -/
theorem edgeCost_eq_metric_mul_avg (g : CostGrid) (hcs : 0 < g.cellSize)
    (u : Cell) (d : Fin 8) (hu : Passable g u) (hv : Passable g (u + octantOffset d)) :
    edgeCost g u (u + octantOffset d) =
      (if u.1 = (u + octantOffset d).1 ∨ u.2 = (u + octantOffset d).2
        then ENNReal.ofReal g.cellSize
        else ENNReal.ofReal (Real.sqrt 2 * g.cellSize)) *
      ((g.cost u + g.cost (u + octantOffset d)) / 2) := by
  unfold edgeCost
  rw [ofReal_centerDist_adj g hcs.le]
  unfold stepLen8
  split_ifs <;> rfl

/-- A concrete 1×2 grid with unit cell size and uniform unit cost, used
to instantiate the theorems. -/
noncomputable def uniformGrid2 : CostGrid :=
  { width := 2, height := 1, cellSize := 1, x0 := 0, y0 := 0, cost := fun _ => 1 }

/-- The origin cell of `uniformGrid2` is passable. -/
theorem passable_origin : Passable uniformGrid2 ((0, 0) : Cell) := by
  refine ⟨⟨le_refl 0, ?_, le_refl 0, ?_⟩, ?_⟩ <;>
    simp [uniformGrid2]

/-- The cell `(0, 1)` of `uniformGrid2` is passable. -/
theorem passable_right : Passable uniformGrid2 ((0, 1) : Cell) := by
  refine ⟨⟨le_refl 0, ?_, ?_, ?_⟩, ?_⟩ <;>
    simp [uniformGrid2]

/-- A single passable cell is a path from itself to itself. -/
theorem isPath_singleton (g : CostGrid) (c : Cell) (h : Passable g c) :
    IsPath g c c [c] := by
  refine ⟨rfl, by simp, List.chain'_singleton c, ?_⟩
  intro x hx
  simp only [List.mem_singleton] at hx
  subst hx
  exact h

/-- Witness for C1 on the concrete uniform grid. -/
theorem uniform_accum_eq_cost_mul_gridDist_witness :
    (0 : ℝ) < uniformGrid2.cellSize ∧ (1 : ℝ≥0∞) ≠ 0 ∧ (1 : ℝ≥0∞) ≠ ⊤ ∧
    (∀ cell, InBounds uniformGrid2 cell → uniformGrid2.cost cell = 1) ∧
    Reachable uniformGrid2 (0, 0) (0, 0) ∧
    accum uniformGrid2 (0, 0) (0, 0) = 1 * gridDist uniformGrid2 (0, 0) (0, 0) :=
  ⟨by norm_num [uniformGrid2], one_ne_zero, ENNReal.one_ne_top, fun _ _ => rfl,
    ⟨[(0, 0)], isPath_singleton _ _ passable_origin⟩,
    uniform_accum_eq_cost_mul_gridDist uniformGrid2 1 (by norm_num [uniformGrid2])
      one_ne_zero ENNReal.one_ne_top (fun _ _ => rfl) (0, 0) (0, 0)
      ⟨[(0, 0)], isPath_singleton _ _ passable_origin⟩⟩

/-- Witness for C2 on the concrete uniform grid, for the eastward step
from the origin cell. -/
theorem edgeCost_eq_metric_mul_avg_witness :
    (0 : ℝ) < uniformGrid2.cellSize ∧
    Passable uniformGrid2 ((0, 0) : Cell) ∧
    Passable uniformGrid2 (((0, 0) : Cell) + octantOffset 2) ∧
    edgeCost uniformGrid2 (0, 0) (((0, 0) : Cell) + octantOffset 2) =
      (if ((0, 0) : Cell).1 = (((0, 0) : Cell) + octantOffset 2).1 ∨
          ((0, 0) : Cell).2 = (((0, 0) : Cell) + octantOffset 2).2
        then ENNReal.ofReal uniformGrid2.cellSize
        else ENNReal.ofReal (Real.sqrt 2 * uniformGrid2.cellSize)) *
      ((uniformGrid2.cost (0, 0) + uniformGrid2.cost (((0, 0) : Cell) + octantOffset 2)) / 2) :=
  ⟨by norm_num [uniformGrid2], passable_origin,
    by simpa [octantOffset] using passable_right,
    edgeCost_eq_metric_mul_avg uniformGrid2 (by norm_num [uniformGrid2]) (0, 0) 2
      passable_origin (by simpa [octantOffset] using passable_right)⟩

/-- The accumulation value of a passable source cell at itself is `0`. -/
theorem accum_self (g : CostGrid) (c : Cell) (h : Passable g c) : accum g c c = 0 := by
  refine le_antisymm ?_ (zero_le _)
  calc accum g c c ≤ pathCost g [c] := iInf_le _ ⟨[c], isPath_singleton g c h⟩
  _ = 0 := by simp [pathCost]

/-- C8: for every input where the destination point's containing cell is
itself the source cell, path extraction returns a route consisting of
exactly one point (that cell's center) with total accumulated cost `0`. -/
theorem source_is_destination_route (g : CostGrid) (s e : Point)
    (h : cellOf g e = cellOf g s) (hp : Passable g (cellOf g s)) :
    findRoute g s e = Except.ok ⟨[cellCenter g (cellOf g s)], e.id, 0⟩ := by
  unfold findRoute extractPath
  rw [h, accum_self g _ hp, if_neg (by simp)]
  have hbd : backDirOf g (cellOf g s) (cellOf g s) = .isSource := by
    unfold backDirOf
    rw [if_pos rfl]
  have hbt : backtrack (backDirOf g (cellOf g s)) (g.width * g.height + 1) (cellOf g s) =
      some [cellOf g s] := by
    unfold backtrack
    rw [hbd]
  rw [hbt]
  rfl

/-- The concrete point whose containing cell in `uniformGrid2` is the
origin cell. -/
noncomputable def ptA : Point := ⟨1 / 2, -(1 / 2), 7⟩

/-- The cell of `uniformGrid2` containing `ptA`. -/
theorem cellOf_ptA : cellOf uniformGrid2 ptA = (0, 0) := by
  unfold cellOf ptA uniformGrid2
  norm_num

/-- Witness for C8: a route request whose start and destination are the
same point. -/
theorem source_is_destination_route_witness :
    cellOf uniformGrid2 ptA = cellOf uniformGrid2 ptA ∧
    Passable uniformGrid2 (cellOf uniformGrid2 ptA) ∧
    findRoute uniformGrid2 ptA ptA =
      Except.ok ⟨[cellCenter uniformGrid2 (cellOf uniformGrid2 ptA)], ptA.id, 0⟩ :=
  ⟨rfl, by rw [cellOf_ptA]; exact passable_origin,
    source_is_destination_route uniformGrid2 ptA ptA rfl
      (by rw [cellOf_ptA]; exact passable_origin)⟩

/-- One octant step changes the column index by at most one. -/
theorem adjacent_col_diff (u v : Cell) (h : Adjacent u v) :
    v.2 ≤ u.2 + 1 ∧ u.2 ≤ v.2 + 1 := by
  obtain ⟨d, rfl⟩ := h
  fin_cases d <;> simp [octantOffset, Prod.snd_add] <;> omega

/-- Discrete intermediate-value property: a chain of octant steps whose
first cell lies strictly left of column `b` and whose last cell lies
strictly right of it visits a cell of column `b`. -/
theorem chain_hits_column (b : ℤ) :
    ∀ p : List Cell, p.Chain' Adjacent → ∀ s t : Cell, p.head? = some s →
      p.getLast? = some t → s.2 < b → b < t.2 → ∃ x ∈ p, x.2 = b
  | [], _, s, t, hh, _, _, _ => by simp at hh
  | [a], _, s, t, hh, hl, hsb, htb => by
    simp only [List.head?_cons, Option.some.injEq] at hh
    simp only [List.getLast?_singleton, Option.some.injEq] at hl
    subst hh
    subst hl
    omega
  | a :: a2 :: l2, hch, s, t, hh, hl, hsb, htb => by
    obtain ⟨hadj, hch2⟩ := List.chain'_cons.mp hch
    have ha : a = s := by simpa using hh
    subst ha
    by_cases hb : a2.2 = b
    · exact ⟨a2, by simp, hb⟩
    · have hcd := adjacent_col_diff a a2 hadj
      have h2 : a2.2 < b := by omega
      obtain ⟨x, hx, hxb⟩ := chain_hits_column b (a2 :: l2) hch2 a2 t rfl
        (by simpa [List.getLast?_cons_cons] using hl) h2 htb
      exact ⟨x, List.mem_cons_of_mem _ hx, hxb⟩

/-- C3: whenever the destination point's containing cell has an infinite
accumulation value, path extraction fails with `UnreachableDestination`
and no route is returned; in particular, a cost grid with an impassable
column strictly between the start and end columns yields
`UnreachableDestination` from the full route computation. -/
theorem unreachable_destination_fails :
    (∀ (g : CostGrid) (acc : Cell → ℝ≥0∞) (bd : Cell → BackDir) (dest : Point),
      acc (cellOf g dest) = ⊤ →
      extractPath g acc bd dest = .error .unreachableDestination) ∧
    (∀ (g : CostGrid) (s e : Point) (b : ℤ),
      (∀ r : ℤ, g.cost (r, b) = ⊤) →
      (cellOf g s).2 < b → b < (cellOf g e).2 →
      findRoute g s e = .error .unreachableDestination) := by
  constructor
  · intro g acc bd dest h
    unfold extractPath
    rw [if_pos h]
  · intro g s e b hcol hs he
    have hempty : ∀ p, ¬ IsPath g (cellOf g s) (cellOf g e) p := by
      intro p hp
      obtain ⟨x, hx, hxb⟩ :=
        chain_hits_column b p hp.chain _ _ hp.head_eq hp.last_eq hs he
      have hpass := hp.mem_passable x hx
      obtain ⟨x1, x2⟩ := x
      simp only at hxb
      subst hxb
      exact hpass.2 (hcol x1)
    have htop : accum g (cellOf g s) (cellOf g e) = ⊤ := by
      unfold accum
      haveI : IsEmpty { p : List Cell // IsPath g (cellOf g s) (cellOf g e) p } :=
        ⟨fun p => hempty p.1 p.2⟩
      exact iInf_of_empty _
    unfold findRoute extractPath
    rw [if_pos htop]

/-- A concrete 1×3 grid whose middle column is impassable, separating the
left and right cells. -/
noncomputable def barrierGrid : CostGrid :=
  { width := 3, height := 1, cellSize := 1, x0 := 0, y0 := 0,
    cost := fun c => if c.2 = 1 then ⊤ else 1 }

/-- A point of `barrierGrid` contained in cell `(0, 0)`. -/
noncomputable def ptS : Point := ⟨1 / 2, -(1 / 2), 0⟩

/-- A point of `barrierGrid` contained in cell `(0, 2)`. -/
noncomputable def ptE : Point := ⟨5 / 2, -(1 / 2), 1⟩

/-- The cell of `barrierGrid` containing `ptS`. -/
theorem cellOf_ptS : cellOf barrierGrid ptS = (0, 0) := by
  unfold cellOf ptS barrierGrid
  norm_num

/-- The cell of `barrierGrid` containing `ptE`. -/
theorem cellOf_ptE : cellOf barrierGrid ptE = (0, 2) := by
  unfold cellOf ptE barrierGrid
  norm_num

/-- Witness for C3: the impassable middle column of `barrierGrid`
separates `ptS` from `ptE`, and an already-infinite accumulation field
makes extraction fail. -/
theorem unreachable_destination_fails_witness :
    (∀ r : ℤ, barrierGrid.cost (r, 1) = ⊤) ∧
    (cellOf barrierGrid ptS).2 < 1 ∧ 1 < (cellOf barrierGrid ptE).2 ∧
    findRoute barrierGrid ptS ptE = .error .unreachableDestination ∧
    extractPath barrierGrid (fun _ => ⊤) (fun _ => .noDir) ptE =
      .error .unreachableDestination :=
  ⟨fun _ => by simp [barrierGrid],
    by rw [cellOf_ptS]; norm_num,
    by rw [cellOf_ptE]; norm_num,
    unreachable_destination_fails.2 barrierGrid ptS ptE 1 (fun _ => by simp [barrierGrid])
      (by rw [cellOf_ptS]; norm_num) (by rw [cellOf_ptE]; norm_num),
    unreachable_destination_fails.1 barrierGrid (fun _ => ⊤) (fun _ => .noDir) ptE rfl⟩

/-- `find?` on a list sorted by `≤` returns an element no larger than any
member satisfying the predicate. -/
theorem find?_first_le {l : List (Fin 8)} (hsort : l.Pairwise (· ≤ ·)) (p : Fin 8 → Bool)
    (d : Fin 8) (hd : d ∈ l) (hpd : p d = true) :
    ∃ d0, l.find? p = some d0 ∧ p d0 = true ∧ d0 ≤ d := by
  induction l with
  | nil => simp at hd
  | cons a l ih =>
    obtain ⟨ha, hl⟩ := List.pairwise_cons.mp hsort
    by_cases hpa : p a = true
    · refine ⟨a, by rw [List.find?_cons_of_pos _ hpa], hpa, ?_⟩
      rcases List.mem_cons.mp hd with h | h
      · exact h ▸ le_refl a
      · exact ha d h
    · have hd' : d ∈ l := by
        rcases List.mem_cons.mp hd with h | h
        · subst h; exact absurd hpd hpa
        · exact h
      obtain ⟨d0, h1, h2, h3⟩ := ih hl hd'
      exact ⟨d0, by rw [List.find?_cons_of_neg _ (by simpa using hpa)]; exact h1, h2, h3⟩

/-- C4: the route computation is a pure function of its inputs, so two
calls with identical inputs produce identical output; and when several
octants offer equal accumulated cost to a cell, the back direction is
resolved deterministically in favor of the smallest octant index: the
recorded direction is a candidate whose index is at most that of any
candidate. -/
theorem route_deterministic_tiebreak :
    (∀ (g : CostGrid) (s e : Point), findRoute g s e = findRoute g s e) ∧
    (∀ (g : CostGrid) (src c : Cell) (d : Fin 8), c ≠ src → accum g src c ≠ ⊤ →
      IsCandidate g src c d →
      ∃ d0 : Fin 8, backDirOf g src c = .octant d0 ∧ IsCandidate g src c d0 ∧ d0 ≤ d) := by
  refine ⟨fun _ _ _ => rfl, ?_⟩
  intro g src c d hne htop hcand
  obtain ⟨d0, h1, h2, h3⟩ := find?_first_le (by decide) (candidateB g src c) d
    (List.mem_finRange d) (by simpa [candidateB] using hcand)
  refine ⟨d0, ?_, by simpa [candidateB] using h2, h3⟩
  unfold backDirOf
  rw [if_neg hne, if_neg htop, h1]
  rfl

/-- Any octant step moves to a distinct cell. -/
theorem adjacent_ne (u : Cell) (d : Fin 8) : u + octantOffset d ≠ u := by
  fin_cases d <;> simp [octantOffset, Prod.ext_iff]

/-- The only in-bounds cells of `uniformGrid2` are `(0,0)` and `(0,1)`. -/
theorem inBounds_uG2 (v : Cell) (h : InBounds uniformGrid2 v) :
    v = (0, 0) ∨ v = (0, 1) := by
  obtain ⟨v1, v2⟩ := v
  obtain ⟨h1, h2, h3, h4⟩ := h
  simp only [uniformGrid2, Nat.cast_ofNat, Nat.cast_one] at h2 h4
  simp only [Prod.mk.injEq]
  omega

/-- The traversal cost of the single edge of `uniformGrid2`, in either
direction. -/
theorem edgeCost_uG2 (u v : Cell)
    (h : (u = (0, 0) ∧ v = (0, 1)) ∨ (u = (0, 1) ∧ v = (0, 0))) :
    edgeCost uniformGrid2 u v = 1 := by
  obtain ⟨rfl, rfl⟩ | ⟨rfl, rfl⟩ := h <;>
  · unfold edgeCost
    rw [centerDist_eq _ (by norm_num [uniformGrid2])]
    norm_num [uniformGrid2]
    exact ENNReal.div_self two_ne_zero ENNReal.two_ne_top

/-- Every path of `uniformGrid2` from the left to the right cell costs at
least `1`. -/
theorem one_le_pathCost_uG2 :
    ∀ p, IsPath uniformGrid2 (0, 0) (0, 1) p → 1 ≤ pathCost uniformGrid2 p := by
  intro p hp
  match p with
  | [] => exact absurd hp.head_eq (by simp)
  | [u] =>
    have h1 : u = ((0, 0) : Cell) := by simpa using hp.head_eq
    have h2 : u = ((0, 1) : Cell) := by simpa using hp.last_eq
    exact absurd (h1 ▸ h2) (by decide)
  | u :: v :: rest =>
    have h1 : u = ((0, 0) : Cell) := by simpa using hp.head_eq
    subst h1
    obtain ⟨hadj, _⟩ := List.chain'_cons.mp hp.chain
    have hv : Passable uniformGrid2 v := hp.mem_passable v (by simp)
    obtain ⟨d, hd⟩ := hadj
    have hvne : v ≠ ((0, 0) : Cell) := hd ▸ adjacent_ne (0, 0) d
    have hv01 : v = ((0, 1) : Cell) := by
      rcases inBounds_uG2 v hv.1 with h | h
      · exact absurd h hvne
      · exact h
    subst hv01
    simp only [pathCost]
    rw [edgeCost_uG2 _ _ (Or.inl ⟨rfl, rfl⟩)]
    exact le_self_add

/-- The accumulation value of `uniformGrid2` at its right cell. -/
theorem accum_uG2_right : accum uniformGrid2 (0, 0) (0, 1) = 1 := by
  refine le_antisymm ?_ (le_iInf fun p => one_le_pathCost_uG2 p.1 p.2)
  have hpath : IsPath uniformGrid2 (0, 0) (0, 1) [(0, 0), (0, 1)] := by
    refine ⟨rfl, by simp, List.chain'_cons.mpr ⟨⟨2, by decide⟩, List.chain'_singleton _⟩, ?_⟩
    intro x hx
    rcases List.mem_cons.mp hx with h | h
    · exact h ▸ passable_origin
    · simp only [List.mem_singleton] at h
      exact h ▸ passable_right
  calc accum uniformGrid2 (0, 0) (0, 1) ≤ pathCost uniformGrid2 [(0, 0), (0, 1)] :=
        iInf_le _ ⟨_, hpath⟩
  _ = 1 := by
      simp only [pathCost]
      rw [edgeCost_uG2 _ _ (Or.inl ⟨rfl, rfl⟩), add_zero]

/-- Octant 6 (west) is a candidate back direction at the right cell of
`uniformGrid2`. -/
theorem cand_west_uG2 : IsCandidate uniformGrid2 (0, 0) (0, 1) 6 := by
  unfold IsCandidate
  have hoff : ((0, 1) : Cell) + octantOffset 6 = (0, 0) := by decide
  rw [hoff, accum_self uniformGrid2 (0, 0) passable_origin,
    edgeCost_uG2 _ _ (Or.inl ⟨rfl, rfl⟩), accum_uG2_right, zero_add]

/-- Witness for C4 on the concrete uniform grid: the west octant attains
the right cell's accumulation, and the recorded back direction is a
candidate of minimal index. -/
theorem route_deterministic_tiebreak_witness :
    ((0, 1) : Cell) ≠ (0, 0) ∧ accum uniformGrid2 (0, 0) (0, 1) ≠ ⊤ ∧
    IsCandidate uniformGrid2 (0, 0) (0, 1) 6 ∧
    (∃ d0 : Fin 8, backDirOf uniformGrid2 (0, 0) (0, 1) = .octant d0 ∧
      IsCandidate uniformGrid2 (0, 0) (0, 1) d0 ∧ d0 ≤ 6) ∧
    findRoute uniformGrid2 ptA ptA = findRoute uniformGrid2 ptA ptA :=
  ⟨by decide, by rw [accum_uG2_right]; simp, cand_west_uG2,
    route_deterministic_tiebreak.2 uniformGrid2 (0, 0) (0, 1) 6 (by decide)
      (by rw [accum_uG2_right]; simp) cand_west_uG2,
    route_deterministic_tiebreak.1 uniformGrid2 ptA ptA⟩

/-- `find?` returns the value at the first index satisfying the
predicate: there is a witness index `j`, no larger than any satisfying
index `i`, at which the predicate holds, all earlier indices failing. -/
theorem find?_eq_first {α : Type} (p : α → Bool) :
    ∀ (l : List α) (i : ℕ) (hi : i < l.length), p (l.get ⟨i, hi⟩) = true →
      ∃ (j : ℕ) (hj : j < l.length), j ≤ i ∧ p (l.get ⟨j, hj⟩) = true ∧
        (∀ k (hk : k < l.length), k < j → p (l.get ⟨k, hk⟩) = false) ∧
        l.find? p = some (l.get ⟨j, hj⟩)
  | [], i, hi, _ => absurd hi (by simp)
  | a :: l, i, hi, hp => by
    by_cases hpa : p a = true
    · exact ⟨0, by simp, Nat.zero_le i, hpa,
        fun k hk hk0 => absurd hk0 (Nat.not_lt_zero k),
        by rw [List.find?_cons_of_pos _ hpa]; rfl⟩
    · match i with
      | 0 => exact absurd hp hpa
      | i + 1 =>
        have hi' : i < l.length := by simpa using hi
        obtain ⟨j, hj, hle, hpj, hmin, hfind⟩ :=
          find?_eq_first p l i hi' (by simpa using hp)
        refine ⟨j + 1, by simpa using hj, by omega, by simpa using hpj, ?_, ?_⟩
        · intro k hk hkj
          match k with
          | 0 => simpa using hpa
          | k + 1 =>
            have hk' : k < l.length := by simpa using hk
            simpa using hmin k hk' (by omega)
        · rw [List.find?_cons_of_neg _ (by simpa using hpa), hfind]
          simp

/-- C5: for every rasterized polygon coverage, each grid cell's category
is the category of the polygon covering the cell's center, and when
several polygons cover the same cell center the first-listed polygon
wins: the assigned category is that of the earliest-listed covering
polygon. -/
theorem rasterize_first_polygon_wins (polys : List Polygon) (g : CostGrid) (cell : Cell)
    (i : ℕ) (hi : i < polys.length)
    (hcov : (polys.get ⟨i, hi⟩).contains (cellCenter g cell) = true) :
    ∃ (j : ℕ) (hj : j < polys.length), j ≤ i ∧
      (polys.get ⟨j, hj⟩).contains (cellCenter g cell) = true ∧
      (∀ k (hk : k < polys.length), k < j →
        (polys.get ⟨k, hk⟩).contains (cellCenter g cell) = false) ∧
      rasterizeCell polys (cellCenter g cell) = some (polys.get ⟨j, hj⟩).category := by
  obtain ⟨j, hj, hle, hpj, hmin, hfind⟩ :=
    find?_eq_first (fun q => q.contains (cellCenter g cell)) polys i hi hcov
  refine ⟨j, hj, hle, hpj, hmin, ?_⟩
  unfold rasterizeCell
  rw [hfind]
  rfl

/-- A polygon covering the whole plane, with the given category. -/
def fullPoly (c : ℤ) : Polygon := ⟨fun _ => true, c⟩

/-- Witness for C5: two overlapping polygons; the first-listed one
(category 5) wins over the second (category 9). -/
theorem rasterize_first_polygon_wins_witness :
    (1 : ℕ) < ([fullPoly 5, fullPoly 9]).length ∧
    (([fullPoly 5, fullPoly 9]).get ⟨1, by decide⟩).contains
      (cellCenter uniformGrid2 (0, 0)) = true ∧
    (∃ (j : ℕ) (hj : j < ([fullPoly 5, fullPoly 9]).length), j ≤ 1 ∧
      (([fullPoly 5, fullPoly 9]).get ⟨j, hj⟩).contains
        (cellCenter uniformGrid2 (0, 0)) = true ∧
      (∀ k (hk : k < ([fullPoly 5, fullPoly 9]).length), k < j →
        (([fullPoly 5, fullPoly 9]).get ⟨k, hk⟩).contains
          (cellCenter uniformGrid2 (0, 0)) = false) ∧
      rasterizeCell [fullPoly 5, fullPoly 9] (cellCenter uniformGrid2 (0, 0)) =
        some (([fullPoly 5, fullPoly 9]).get ⟨j, hj⟩).category) :=
  ⟨by decide, rfl,
    rasterize_first_polygon_wins [fullPoly 5, fullPoly 9] uniformGrid2 (0, 0) 1
      (by decide) rfl⟩

/-- A value matching the first remap entry is replaced by that entry's
mapped cost. -/
theorem reclassifyCell_outdoor (iv ov ic oc : ℤ) :
    reclassifyCell [(ov, oc), (iv, ic)] MissingValues.data (some ov) = some oc := by
  simp [reclassifyCell, List.find?]

/-- A value matching the second remap entry (and not the first) is
replaced by that entry's mapped cost. -/
theorem reclassifyCell_indoor (iv ov ic oc : ℤ) (hne : iv ≠ ov) :
    reclassifyCell [(ov, oc), (iv, ic)] MissingValues.data (some iv) = some ic := by
  have h1 : (ov == iv) = false := by simpa using Ne.symm hne
  simp [reclassifyCell, List.find?, h1]

/-- With `missing_values="DATA"`, a value absent from the remap table
keeps its original value. -/
theorem reclassifyCell_unmapped (iv ov ic oc x : ℤ) (hx1 : x ≠ iv) (hx2 : x ≠ ov) :
    reclassifyCell [(ov, oc), (iv, ic)] MissingValues.data (some x) = some x := by
  have h1 : (ov == x) = false := by simpa using Ne.symm hx2
  have h2 : (iv == x) = false := by simpa using Ne.symm hx1
  simp [reclassifyCell, List.find?, h1, h2]

/-- C6 counterexample: with the remap table `{2 ↦ 10, 1 ↦ 1}` of the
script's call, a cell whose rasterized category is `3` — absent from the
mapping — is not an error: the pipeline completes and the cell silently
keeps its original value `3` (it is neither `0`, nor infinity/no-data,
because the call passes `missing_values="DATA"`). -/
theorem reclassify_unmapped_counterexample :
    build [fullPoly 3] 1 2 1 10 uniformGrid2 (0, 0) = some 3 := rfl

/-- C6 (amended): every cell whose category appears in the remap table is
replaced by its mapped cost, but a category absent from the mapping is
not an error: because the script passes `missing_values="DATA"`, the cell
silently keeps its original category value (and a no-data cell stays
no-data). -/
theorem reclassify_maps_or_keeps (walkways : List Polygon)
    (iv ov ic oc : ℤ) (g : CostGrid) (cell : Cell) :
    (rasterizeCell walkways (cellCenter g cell) = some ov →
      build walkways iv ov ic oc g cell = some oc) ∧
    (iv ≠ ov → rasterizeCell walkways (cellCenter g cell) = some iv →
      build walkways iv ov ic oc g cell = some ic) ∧
    (∀ x : ℤ, x ≠ iv → x ≠ ov → rasterizeCell walkways (cellCenter g cell) = some x →
      build walkways iv ov ic oc g cell = some x) ∧
    (rasterizeCell walkways (cellCenter g cell) = Option.none →
      build walkways iv ov ic oc g cell = Option.none) := by
  refine ⟨?_, ?_, ?_, ?_⟩
  · intro h
    unfold build
    rw [h, reclassifyCell_outdoor]
  · intro hne h
    unfold build
    rw [h, reclassifyCell_indoor _ _ _ _ hne]
  · intro x hx1 hx2 h
    unfold build
    rw [h, reclassifyCell_unmapped _ _ _ _ _ hx1 hx2]
  · intro h
    unfold build
    rw [h]
    rfl

/-- Witness for the amended C6: a mapped outdoor cell receives the
outdoor cost. -/
theorem reclassify_maps_or_keeps_witness :
    rasterizeCell [fullPoly 2] (cellCenter uniformGrid2 (0, 0)) = some 2 ∧
    build [fullPoly 2] 1 2 1 10 uniformGrid2 (0, 0) = some 10 :=
  ⟨rfl, (reclassify_maps_or_keeps [fullPoly 2] 1 2 1 10 uniformGrid2 (0, 0)).1 rfl⟩

/-- C7 counterexample: a supplied indoor cost of `0` flows into the
produced cost grid unchanged — the pipeline completes, returns a grid
holding a cost of exactly `0`, and neither rejects the input nor clamps
the value to an epsilon. -/
theorem zero_cost_passes_through :
    build [fullPoly 1] 1 2 0 10 uniformGrid2 (0, 0) = some 0 := rfl

/-- C7 (amended): the cost-surface pipeline performs no validation of the
supplied cost values: whatever indoor cost value is supplied — zero
included — appears verbatim in the produced grid; nothing is rejected
with an error and nothing is clamped to a minimum epsilon. -/
theorem no_cost_validation (iv ov ic oc : ℤ) (g : CostGrid) (cell : Cell)
    (hne : iv ≠ ov) :
    build [fullPoly iv] iv ov ic oc g cell = some ic := by
  have hr : rasterizeCell [fullPoly iv] (cellCenter g cell) = some iv := rfl
  unfold build
  rw [hr, reclassifyCell_indoor _ _ _ _ hne]

/-- Witness for the amended C7, at indoor cost `0`. -/
theorem no_cost_validation_witness :
    (1 : ℤ) ≠ 2 ∧ build [fullPoly 1] 1 2 0 10 uniformGrid2 (0, 1) = some 0 :=
  ⟨by decide, no_cost_validation 1 2 0 10 uniformGrid2 (0, 1) (by decide)⟩

/-- A failure oracle under which only the Reclassify call raises. -/
def failReclassifyOnly : CRStep → Bool
  | CRStep.reclassify => true
  | _ => false

/-- C9 counterexample: when the Reclassify call fails,
`create_campus_cost_raster` returns the error while the temporary
rasterized-category grid persists past the call, because the `Delete` at
the end of the `try` block is never reached and the `except` clauses
re-raise without cleaning up. -/
theorem temp_raster_persists_on_failure :
    (create_campus_cost_raster failReclassifyOnly "campusCost" []).1 =
      Except.error OrchErr.executeError ∧
    walkwaysTemp ∈ (create_campus_cost_raster failReclassifyOnly "campusCost" []).2 := by
  constructor
  · rfl
  · simp [create_campus_cost_raster, failReclassifyOnly]

/-- C9 (amended): on a fully successful run of the cost-surface
construction no temporary artifact persists past the call — the final
artifact list is exactly the output raster prepended to the initial
artifacts; but on a run where Reclassify, save, or the final Delete
fails, the temporary rasterized-category grid does persist past the
call. -/
theorem temp_raster_cleanup (fail : CRStep → Bool) (out : String) (st : List String)
    (hst : walkwaysTemp ∉ st) (hout : out ≠ walkwaysTemp) :
    (fail CRStep.polygonToRaster = false → fail CRStep.reclassify = false →
      fail CRStep.save = false → fail CRStep.deleteTemp = false →
      (create_campus_cost_raster fail out st).1 = Except.ok () ∧
      (create_campus_cost_raster fail out st).2 = out :: st ∧
      walkwaysTemp ∉ (create_campus_cost_raster fail out st).2) ∧
    (fail CRStep.polygonToRaster = false →
      (fail CRStep.reclassify = true ∨ fail CRStep.save = true ∨
        fail CRStep.deleteTemp = true) →
      (create_campus_cost_raster fail out st).1 = Except.error OrchErr.executeError ∧
      walkwaysTemp ∈ (create_campus_cost_raster fail out st).2) := by
  constructor
  · intro h1 h2 h3 h4
    have herase : (out :: walkwaysTemp :: st).erase walkwaysTemp = out :: st := by
      rw [List.erase_cons_tail, List.erase_cons_head]
      simp [hout]
    refine ⟨?_, ?_, ?_⟩ <;>
      simp [create_campus_cost_raster, h1, h2, h3, h4, herase, hst, Ne.symm hout]
  · intro h1 h2
    rcases h2 with h | h | h
    · constructor <;> simp [create_campus_cost_raster, h1, h]
    · rcases hr : fail CRStep.reclassify with hv | hv
      · constructor <;> simp [create_campus_cost_raster, h1, h, hr]
      · constructor <;> simp [create_campus_cost_raster, h1, hr]
    · rcases hr : fail CRStep.reclassify with hv | hv
      · rcases hs : fail CRStep.save with hv2 | hv2
        · constructor <;> simp [create_campus_cost_raster, h1, h, hr, hs]
        · constructor <;> simp [create_campus_cost_raster, h1, hr, hs]
      · constructor <;> simp [create_campus_cost_raster, h1, hr]

/-- Witness for the amended C9: a fully successful run and a run failing
at Reclassify. -/
theorem temp_raster_cleanup_witness :
    walkwaysTemp ∉ ([] : List String) ∧ "campusCost" ≠ walkwaysTemp ∧
    ((create_campus_cost_raster (fun _ => false) "campusCost" []).1 = Except.ok () ∧
      (create_campus_cost_raster (fun _ => false) "campusCost" []).2 = ["campusCost"] ∧
      walkwaysTemp ∉ (create_campus_cost_raster (fun _ => false) "campusCost" []).2) ∧
    ((create_campus_cost_raster failReclassifyOnly "campusCost" []).1 =
        Except.error OrchErr.executeError ∧
      walkwaysTemp ∈ (create_campus_cost_raster failReclassifyOnly "campusCost" []).2) :=
  ⟨by simp, by decide,
    (temp_raster_cleanup (fun _ => false) "campusCost" [] (by simp) (by decide)).1
      rfl rfl rfl rfl,
    (temp_raster_cleanup failReclassifyOnly "campusCost" [] (by simp) (by decide)).2
      rfl (Or.inl rfl)⟩

/-- A failure oracle under which only the OptimalPathAsLine call
raises. -/
def failOptimalPathOnly : FRStep → Bool
  | FRStep.optimalPath => true
  | _ => false

/-- C10: in the route computation the temporary back-direction grid
created by the accumulation step is deleted only on the fully successful
path, after path extraction completes: whenever the accumulation step
succeeds and the path extraction (or the later delete step) raises, the
back-direction grid created for that run persists after the call returns
the error; a fully successful run removes it. -/
theorem back_direction_persists_on_failure (fail : FRStep → Bool) (st : List String)
    (hst : backDirTemp ∉ st) :
    (fail FRStep.distanceAccumulation = false →
      (fail FRStep.optimalPath = true ∨
        (fail FRStep.optimalPath = false ∧ fail FRStep.deleteTemp = true)) →
      (find_campus_route fail st).1 = Except.error OrchErr.executeError ∧
      backDirTemp ∈ (find_campus_route fail st).2) ∧
    (fail FRStep.distanceAccumulation = false → fail FRStep.optimalPath = false →
      fail FRStep.deleteTemp = false →
      (find_campus_route fail st).1 = Except.ok () ∧
      backDirTemp ∉ (find_campus_route fail st).2) := by
  constructor
  · intro h1 h2
    rcases h2 with h | ⟨h, h'⟩
    · constructor <;> simp [find_campus_route, h1, h]
    · constructor <;> simp [find_campus_route, h1, h, h']
  · intro h1 h2 h3
    have herase : (CAMPUS_ROUTE :: backDirTemp :: st).erase backDirTemp =
        CAMPUS_ROUTE :: st := by
      rw [List.erase_cons_tail, List.erase_cons_head]
      simp [CAMPUS_ROUTE, backDirTemp]
    have hst' : "memory/campus_route_back_direction" ∉ st := hst
    constructor <;>
      simp [find_campus_route, h1, h2, h3, herase, hst', CAMPUS_ROUTE, backDirTemp]

/-- Witness for C10: a run failing at path extraction and a fully
successful run. -/
theorem back_direction_persists_on_failure_witness :
    backDirTemp ∉ ([] : List String) ∧
    ((find_campus_route failOptimalPathOnly []).1 = Except.error OrchErr.executeError ∧
      backDirTemp ∈ (find_campus_route failOptimalPathOnly []).2) ∧
    ((find_campus_route (fun _ => false) []).1 = Except.ok () ∧
      backDirTemp ∉ (find_campus_route (fun _ => false) []).2) :=
  ⟨by simp,
    (back_direction_persists_on_failure failOptimalPathOnly [] (by simp)).1
      rfl (Or.inl rfl),
    (back_direction_persists_on_failure (fun _ => false) [] (by simp)).2 rfl rfl rfl⟩

end CampusPath
